import Mathlib

/-!
Verification of the fetch–paginate–format–save pipeline of
`research_scraper.py` (the Research_Compiler repository).

The Python source is shallowly embedded: JSON objects of interest become
structures with `Option` fields (an absent key is `none`), the HTTP layer
becomes an oracle `Nat → HttpOutcome` mapping each pagination offset to the
outcome of the GET request issued at that offset, and the CSV writer becomes
a pure function from the formatted records to the rows it would write.
-/

namespace ResearchScraper

/-- One entry of `publication_info.authors`: a JSON object whose `name`
key may be absent (`author.get("name", "N/A")` in the source). -/
structure Author where
  name : Option String
deriving Repr, DecidableEq

/-- The `publication_info` JSON object; only its `authors` key is read
(`publication_info.get("authors", [])`). -/
structure PublicationInfo where
  authors : Option (List Author)
deriving Repr, DecidableEq

/-- A raw Google Scholar result as consumed by
`format_google_scholar_results`: the keys `title`, `link` and
`publication_info` may each be absent. -/
structure RawResult where
  title : Option String
  link : Option String
  publication_info : Option PublicationInfo
deriving Repr, DecidableEq

/-- The normalized record built by `format_google_scholar_results`
(keys `Type`, `Title`, `Authors/Inventors`, `Link/Patent Number`). -/
structure NormalizedRecord where
  type : String
  title : String
  authors : String
  link : String
deriving Repr, DecidableEq

/-- The JSON body returned by the SerpAPI endpoint; the pipeline reads
only its `organic_results` key (`data.get("organic_results", [])`). -/
structure SerpResponse where
  organic_results : Option (List RawResult)
deriving Repr, DecidableEq

/-- The empty mapping `{}` that `fetch` returns on every failure path. -/
def emptyMapping : SerpResponse := { organic_results := none }

/-- Outcome of one HTTP GET: either a response with a status code and a
decoded body, or a transport-level failure (timeout, DNS, connection
reset), which in the source surfaces as a raised exception. -/
inductive HttpOutcome where
  | response (status : Nat) (body : SerpResponse)
  | exception
deriving Repr, DecidableEq

/-- `fetch` (lines 23–44): on status 200 return the decoded JSON body,
on any other status return `{}`, and on a transport exception catch it
and return `{}`.  The embedding is a total function: `fetch` never
propagates a failure to its caller. -/
def fetch : HttpOutcome → SerpResponse
  | .response status body => if status = 200 then body else emptyMapping
  | .exception => emptyMapping

/-- `data.get("organic_results", [])` (lines 68, 70). -/
def organicResults (data : SerpResponse) : List RawResult :=
  data.organic_results.getD []

/-- The body of the `for start in range(...)` loop of
`get_google_scholar_results` (lines 59–71), recursing over the list of
offsets the `range` would yield: fetch the page at the next offset,
append its items to the accumulator, and `break` when the page has
fewer than 10 items.  Returns the accumulated results together with the
list of offsets at which a fetch call was actually issued. -/
def pageLoop (pages : Nat → List RawResult) : List Nat → List RawResult × List Nat
  | [] => ([], [])
  | start :: rest =>
    let page := pages start
    if page.length < 10 then (page, [start])
    else
      let r := pageLoop pages rest
      (page ++ r.1, start :: r.2)

/-- The offsets `range(0, num_results, 10)` iterates over
(line 59): `0, 10, 20, …` while the offset is below `num_results`. -/
def pageOffsets (num_results : Nat) : List Nat :=
  List.range' 0 ((num_results + 9) / 10) 10

/-- `get_google_scholar_results` (lines 46–72), parameterised by the
network oracle `net` giving the outcome of the GET issued at each
offset.  Returns the accumulated raw results and the offsets fetched. -/
def get_google_scholar_results (net : Nat → HttpOutcome) (num_results : Nat) :
    List RawResult × List Nat :=
  pageLoop (fun start => organicResults (fetch (net start))) (pageOffsets num_results)

/-- The `author_names` list of line 124:
`[author.get("name", "N/A") for author in authors] if authors else ["N/A"]`,
where `authors = result.get("publication_info", {}).get("authors", [])`. -/
def authorNames (result : RawResult) : List String :=
  let publication_info := result.publication_info.getD { authors := none }
  let authors := publication_info.authors.getD []
  if authors.isEmpty then ["N/A"] else authors.map (fun author => author.name.getD "N/A")

/-- The record appended for one raw result (lines 126–131). -/
def format_one (result : RawResult) : NormalizedRecord :=
  { type := "Research Paper"
    title := result.title.getD "N/A"
    authors := String.intercalate ", " (authorNames result)
    link := result.link.getD "N/A" }

/-- `format_google_scholar_results` (lines 109–132): one normalized
record per raw result, no filtering. -/
def format_google_scholar_results (results : List RawResult) : List NormalizedRecord :=
  results.map format_one

/-- One data row of the CSV file (lines 99–105). -/
structure CsvRow where
  id : Nat
  type : String
  title : String
  authors : String
  link : String
deriving Repr, DecidableEq

/-- The writer loop of `save_results` (lines 90–105): `idx` is the
`enumerate(results, start=1)` counter, which advances on EVERY input
record; `seen_titles` is the set of titles already emitted; a record
whose title was already seen is skipped, otherwise a row is written and
its title recorded. -/
def save_rows : List NormalizedRecord → Nat → List String → List CsvRow
  | [], _, _ => []
  | item :: rest, idx, seen_titles =>
    if item.title ∈ seen_titles then
      save_rows rest (idx + 1) seen_titles
    else
      { id := idx, type := item.type, title := item.title,
        authors := item.authors, link := item.link }
        :: save_rows rest (idx + 1) (item.title :: seen_titles)

/-- Observable outcome of `save_results`: either no file was created and
a message was printed, or a file with a header row and data rows was
written. -/
inductive SaveOutcome where
  | noFile (message : String)
  | file (header : List String) (rows : List CsvRow)
deriving Repr, DecidableEq

/-- The CSV header row (line 93). -/
def csvHeader : List String :=
  ["ID", "Type", "Title", "Authors/Inventors", "Link/Patent Number"]

/-- `save_results` (lines 74–107): on an empty input, print
"No results found." and create no file; otherwise write the header and
the deduplicated rows. -/
def save_results (results : List NormalizedRecord) : SaveOutcome :=
  if results.isEmpty then .noFile "No results found. Skipping file save."
  else .file csvHeader (save_rows results 1 [])

/-- The data rows a `SaveOutcome` put on disk (none when no file was
created). -/
def writtenRows : SaveOutcome → List CsvRow
  | .noFile _ => []
  | .file _ rows => rows

/-- What one iteration of `main`'s `while True` loop does with the
operator's input (lines 139–154). -/
inductive LoopAction where
  | exitLoop
  | reprompt
  | ranQuery (query : String)
deriving Repr, DecidableEq

/-- The externally visible side effects of one loop iteration: HTTP GET
requests (one per pagination offset) and at most one file write. -/
inductive Effect where
  | fetchCall (offset : Nat)
  | fileWrite (rows : List CsvRow)
deriving Repr, DecidableEq

/-- The side effects of running one non-empty, non-exit query
(lines 149–154): the paginator's fetch calls, then the file write if
`save_results` created a file. -/
def queryEffects (net : Nat → HttpOutcome) : List Effect :=
  let fetched := get_google_scholar_results net 50
  let formatted := format_google_scholar_results fetched.1
  fetched.2.map Effect.fetchCall ++
    (match save_results formatted with
     | .noFile _ => []
     | .file _ rows => [Effect.fileWrite rows])

/-- Python's `str.lower()`, modelled character by character. -/
def lower (s : String) : String := ⟨s.data.map Char.toLower⟩

/-- Python's `str.strip()`: drop leading and trailing whitespace. -/
def strip (s : String) : String :=
  ⟨((s.data.dropWhile Char.isWhitespace).reverse.dropWhile Char.isWhitespace).reverse⟩

/-- One iteration of `main` (lines 139–154): `exit` (case-insensitive)
leaves the loop; an input whose `strip()` is empty re-prompts with no
side effects; otherwise the query runs with `num_results = 50`. -/
def main_step (net : Nat → HttpOutcome) (query : String) : LoopAction × List Effect :=
  if lower query = "exit" then (.exitLoop, [])
  else if strip query = "" then (.reprompt, [])
  else (.ranQuery query, queryEffects net)

/-- Spec-side deduplication, stated from the spec's words ("maintain a
set of seen titles; skip any record whose title was already emitted";
"first occurrence (by fetch order) wins, later duplicates are dropped"):
keep the first occurrence of each title, in order.  Used only to compare
the writer against the spec. -/
def specDedupFirst : List NormalizedRecord → List String → List NormalizedRecord
  | [], _ => []
  | r :: rest, seen =>
    if r.title ∈ seen then specDedupFirst rest seen
    else r :: specDedupFirst rest (r.title :: seen)

/-- The data carried by a CSV row apart from its ID column. -/
def rowContent (row : CsvRow) : String × String × String × String :=
  (row.type, row.title, row.authors, row.link)

/-- The data of a normalized record, in the writer's column order. -/
def recordContent (r : NormalizedRecord) : String × String × String × String :=
  (r.type, r.title, r.authors, r.link)

/-! Concrete inputs used by counterexamples and witnesses. -/

/-- Three formatted records, the first two sharing the title "A". -/
def dupTitleInput : List NormalizedRecord :=
  [{ type := "Research Paper", title := "A", authors := "X", link := "la" },
   { type := "Research Paper", title := "A", authors := "Y", link := "lb" },
   { type := "Research Paper", title := "B", authors := "Z", link := "lc" }]

/-- A raw result with every optional key absent. -/
def blankRaw : RawResult := { title := none, link := none, publication_info := none }

/-- A raw result with a title and link but no `publication_info`. -/
def exNoAuthors : RawResult :=
  { title := some "T", link := some "L", publication_info := none }

/-- A two-author list, the second author lacking a `name`. -/
def exAuthors : List Author := [{ name := some "J. Smith" }, { name := none }]

/-- A raw result whose `publication_info.authors` is `exAuthors`. -/
def exWithAuthors : RawResult :=
  { title := some "Paper A", link := some "http://x",
    publication_info := some { authors := some exAuthors } }

/-- A network where every page request succeeds with exactly 10 results. -/
def netFull : Nat → HttpOutcome :=
  fun _ => .response 200 { organic_results := some (List.replicate 10 blankRaw) }

/-- A network where offsets 0 and 10 return full pages and the request
at offset 20 hits a transport failure. -/
def netFail : Nat → HttpOutcome :=
  fun o =>
    if o < 20 then .response 200 { organic_results := some (List.replicate 10 blankRaw) }
    else .exception

/-- Two raw results that both lack a title but have different links. -/
def rawsTitleless : List RawResult :=
  [{ title := none, link := some "http://x", publication_info := none },
   { title := none, link := some "http://y", publication_info := none }]

/-- `true` iff the raw result has no `authors` key anywhere
(`publication_info` absent, or present without `authors`). -/
def lacksAuthorsField (r : RawResult) : Bool :=
  match r.publication_info with
  | none => true
  | some p => p.authors.isNone

/-! Helper lemmas shared by the claim theorems. -/

/-- For every input, the rows on disk are exactly what the dedup loop
produces from `idx = 1` and an empty seen set (on an empty input both
sides are `[]`). -/
lemma writtenRows_eq (results : List NormalizedRecord) :
    writtenRows (save_results results) = save_rows results 1 [] := by
  cases results with
  | nil => rfl
  | cons r rest => rfl

/-! Claim theorems. -/

/-- Claim C8: for the empty input sequence the writer creates no file
and reports that no results were found; this is a no-op outcome, not an
error. -/
theorem save_results_empty_no_file :
    save_results [] = SaveOutcome.noFile "No results found. Skipping file save." := rfl

/-- Claim C4: a raw result that lacks an authors field entirely is
formatted with authors value exactly "N/A", not the empty string. -/
theorem format_missing_authors (result : RawResult)
    (h : lacksAuthorsField result = true) :
    (format_one result).authors = "N/A" ∧ (format_one result).authors ≠ "" := by
  have hNA : ("N/A" : String) ≠ "" := by decide
  obtain ⟨t, l, pio⟩ := result
  cases pio with
  | none => exact ⟨rfl, hNA⟩
  | some p =>
    obtain ⟨ao⟩ := p
    cases ao with
    | none => exact ⟨rfl, hNA⟩
    | some as => simp [lacksAuthorsField, Option.isNone] at h

/-- Witness for C4 at a concrete record with no `publication_info`. -/
theorem format_missing_authors_witness :
    (format_one exNoAuthors).authors = "N/A" ∧ (format_one exNoAuthors).authors ≠ "" :=
  format_missing_authors exNoAuthors rfl

/-- Claim C3: when `publication_info` carries an authors list of length
at least 1, the formatted authors field is the names joined by ", " in
order, with "N/A" substituted for a missing name. -/
theorem format_authors_join (result : RawResult) (p : PublicationInfo)
    (authors : List Author) (hp : result.publication_info = some p)
    (ha : p.authors = some authors) (hlen : 1 ≤ authors.length) :
    (format_one result).authors =
      String.intercalate ", " (authors.map (fun author => author.name.getD "N/A")) := by
  cases authors with
  | nil => simp at hlen
  | cons a as => simp [format_one, authorNames, hp, ha]

/-- Witness for C3: two authors, the second without a name, join to
"J. Smith, N/A". -/
theorem format_authors_join_witness :
    (format_one exWithAuthors).authors =
        String.intercalate ", " (exAuthors.map (fun author => author.name.getD "N/A")) ∧
      (format_one exWithAuthors).authors = "J. Smith, N/A" :=
  ⟨format_authors_join exWithAuthors { authors := some exAuthors } exAuthors rfl rfl
      (by decide),
   by decide⟩

/-- Claim C6: on any outcome that is not a 200 response — any other
status, or a transport failure — `fetch` returns (rather than raises)
the empty mapping, indistinguishable from a 200 response whose body is
the empty mapping. -/
theorem fetch_failure_empty (o : HttpOutcome)
    (h : ∀ body, o ≠ HttpOutcome.response 200 body) :
    fetch o = emptyMapping ∧ fetch o = fetch (.response 200 emptyMapping) := by
  cases o with
  | exception => exact ⟨rfl, rfl⟩
  | response status body =>
    have hs : status ≠ 200 := by
      intro heq
      exact h body (by rw [heq])
    simp [fetch, hs]

/-- Witness for C6 at a 503 response and at a transport failure. -/
theorem fetch_failure_empty_witness :
    fetch (HttpOutcome.response 503 { organic_results := some [] }) = emptyMapping ∧
      fetch HttpOutcome.exception = emptyMapping :=
  ⟨(fetch_failure_empty _ (by intro body hb; simp at hb)).1,
   (fetch_failure_empty _ (by intro body hb; exact HttpOutcome.noConfusion hb)).1⟩

/-- Claim C9: an input that strips to the empty string and is not the
exit keyword makes the loop re-prompt with no side effects: no fetch
call and no file write occur. -/
theorem empty_input_reprompts (net : Nat → HttpOutcome) (query : String)
    (hexit : lower query ≠ "exit") (hempty : strip query = "") :
    main_step net query = (LoopAction.reprompt, []) := by
  simp [main_step, hexit, hempty]

/-- Witness for C9 at the whitespace-only input " ". -/
theorem empty_input_reprompts_witness :
    main_step (fun _ => HttpOutcome.exception) " " = (LoopAction.reprompt, []) :=
  empty_input_reprompts _ " " (by decide) (by decide)

/-- The writer's rows carry the same data, in the same order, as the
spec-side first-occurrence dedup. -/
lemma save_rows_map_content (l : List NormalizedRecord) (idx : Nat) (seen : List String) :
    (save_rows l idx seen).map rowContent = (specDedupFirst l seen).map recordContent := by
  induction l generalizing idx seen with
  | nil => rfl
  | cons item rest ih =>
    by_cases h : item.title ∈ seen
    · simp [save_rows, specDedupFirst, h, ih]
    · simp [save_rows, specDedupFirst, h, ih, rowContent, recordContent]

/-- Title column of the writer's rows, via the spec-side dedup. -/
lemma save_rows_map_title (l : List NormalizedRecord) (idx : Nat) (seen : List String) :
    (save_rows l idx seen).map CsvRow.title
      = (specDedupFirst l seen).map NormalizedRecord.title := by
  induction l generalizing idx seen with
  | nil => rfl
  | cons item rest ih =>
    by_cases h : item.title ∈ seen
    · simp [save_rows, specDedupFirst, h, ih]
    · simp [save_rows, specDedupFirst, h, ih]

/-- A title survives the spec-side dedup iff it occurs in the input and
was not already seen. -/
lemma mem_title_specDedupFirst (l : List NormalizedRecord) (seen : List String)
    (t : String) :
    t ∈ (specDedupFirst l seen).map NormalizedRecord.title ↔
      t ∈ l.map NormalizedRecord.title ∧ t ∉ seen := by
  induction l generalizing seen with
  | nil => simp [specDedupFirst]
  | cons r rest ih =>
    by_cases h : r.title ∈ seen
    · rw [specDedupFirst]
      simp only [h, if_true, List.map_cons, List.mem_cons, ih]
      constructor
      · rintro ⟨hm, hs⟩
        exact ⟨Or.inr hm, hs⟩
      · rintro ⟨hm | hm, hs⟩
        · exact absurd (hm ▸ h) hs
        · exact ⟨hm, hs⟩
    · rw [specDedupFirst]
      simp only [h, if_false, List.map_cons, List.mem_cons, ih, List.mem_cons]
      constructor
      · rintro (rfl | ⟨hm, hs⟩)
        · exact ⟨Or.inl rfl, h⟩
        · exact ⟨Or.inr hm, fun hc => hs (Or.inr hc)⟩
      · rintro ⟨hm | hm, hs⟩
        · exact Or.inl hm
        · by_cases ht : t = r.title
          · exact Or.inl ht
          · exact Or.inr ⟨hm, fun hc => (by
              rcases hc with h1 | h1
              exacts [ht h1, hs h1])⟩

/-- The titles surviving the spec-side dedup are pairwise distinct. -/
lemma nodup_title_specDedupFirst (l : List NormalizedRecord) (seen : List String) :
    ((specDedupFirst l seen).map NormalizedRecord.title).Nodup := by
  induction l generalizing seen with
  | nil => simp [specDedupFirst]
  | cons r rest ih =>
    by_cases h : r.title ∈ seen
    · rw [specDedupFirst]
      simp only [h, if_true]
      exact ih seen
    · rw [specDedupFirst]
      simp only [h, if_false, List.map_cons, List.nodup_cons]
      refine ⟨fun hc => ?_, ih (r.title :: seen)⟩
      exact ((mem_title_specDedupFirst rest (r.title :: seen) r.title).mp hc).2
        (List.mem_cons_self r.title seen)

/-- Every row produced from counter value `idx` onwards has ID ≥ `idx`. -/
lemma save_rows_lower_bound (l : List NormalizedRecord) (idx : Nat) (seen : List String) :
    ∀ row ∈ save_rows l idx seen, idx ≤ row.id := by
  induction l generalizing idx seen with
  | nil => simp [save_rows]
  | cons item rest ih =>
    intro row hrow
    by_cases h : item.title ∈ seen
    · rw [save_rows] at hrow
      simp only [h, if_true] at hrow
      exact Nat.le_of_succ_le (ih (idx + 1) seen row hrow)
    · rw [save_rows] at hrow
      simp only [h, if_false, List.mem_cons] at hrow
      rcases hrow with rfl | hrow
      · exact Nat.le_refl idx
      · exact Nat.le_of_succ_le (ih (idx + 1) (item.title :: seen) row hrow)

/-- A row with ID `idx + i` is produced exactly when the record at
position `i` is the first (relative to `seen`) occurrence of its title:
the counter `idx` advances on every input record, emitted or skipped. -/
lemma save_rows_id_iff (l : List NormalizedRecord) (idx : Nat) (seen : List String)
    (i : Nat) :
    (∃ row ∈ save_rows l idx seen, row.id = idx + i) ↔
      (∃ r, l.get? i = some r ∧ r.title ∉ seen ∧
        ∀ j, j < i → ∀ r', l.get? j = some r' → r'.title ≠ r.title) := by
  induction l generalizing idx seen i with
  | nil => simp [save_rows]
  | cons item rest ih =>
    by_cases h : item.title ∈ seen
    · rw [save_rows]
      simp only [h, if_true]
      cases i with
      | zero =>
        constructor
        · rintro ⟨row, hrow, hid⟩
          have := save_rows_lower_bound rest (idx + 1) seen row hrow
          omega
        · rintro ⟨r, hr, hseen, -⟩
          rw [List.get?_cons_zero] at hr
          cases hr
          exact absurd h hseen
      | succ i' =>
        have hshift : ∀ row : CsvRow, row.id = idx + (i' + 1) ↔ row.id = (idx + 1) + i' := by
          intro row; omega
        constructor
        · rintro ⟨row, hrow, hid⟩
          obtain ⟨r, hr, hseen, hfirst⟩ :=
            (ih (idx + 1) seen i').mp ⟨row, hrow, (hshift row).mp hid⟩
          refine ⟨r, by simpa using hr, hseen, ?_⟩
          intro j hj r' hr'
          cases j with
          | zero =>
            rw [List.get?_cons_zero] at hr'
            cases hr'
            exact fun hc => hseen (hc ▸ h)
          | succ j' =>
            rw [List.get?_cons_succ] at hr'
            exact hfirst j' (by omega) r' hr'
        · rintro ⟨r, hr, hseen, hfirst⟩
          rw [List.get?_cons_succ] at hr
          obtain ⟨row, hrow, hid⟩ := (ih (idx + 1) seen i').mpr
            ⟨r, hr, hseen, fun j hj r' hr' =>
              hfirst (j + 1) (by omega) r' (by simpa using hr')⟩
          exact ⟨row, hrow, (hshift row).mpr hid⟩
    · rw [save_rows]
      simp only [h, if_false]
      cases i with
      | zero =>
        constructor
        · rintro -
          exact ⟨item, List.get?_cons_zero, h, fun j hj => absurd hj (Nat.not_lt_zero j)⟩
        · rintro -
          exact ⟨{ id := idx, type := item.type, title := item.title,
                   authors := item.authors, link := item.link },
                 List.mem_cons_self _ _, rfl⟩
      | succ i' =>
        have hshift : ∀ row : CsvRow, row.id = idx + (i' + 1) ↔ row.id = (idx + 1) + i' := by
          intro row; omega
        constructor
        · rintro ⟨row, hrow, hid⟩
          rcases List.mem_cons.mp hrow with rfl | hrow
          · simp only at hid
            omega
          · obtain ⟨r, hr, hseen, hfirst⟩ :=
              (ih (idx + 1) (item.title :: seen) i').mp ⟨row, hrow, (hshift row).mp hid⟩
            refine ⟨r, by simpa using hr,
              fun hc => hseen (List.mem_cons_of_mem _ hc), ?_⟩
            intro j hj r' hr'
            cases j with
            | zero =>
              rw [List.get?_cons_zero] at hr'
              cases hr'
              exact fun hc => hseen (hc ▸ List.mem_cons_self _ _)
            | succ j' =>
              rw [List.get?_cons_succ] at hr'
              exact hfirst j' (by omega) r' hr'
        · rintro ⟨r, hr, hseen, hfirst⟩
          rw [List.get?_cons_succ] at hr
          have hne : item.title ≠ r.title :=
            hfirst 0 (Nat.succ_pos i') item List.get?_cons_zero
          have hseen' : r.title ∉ item.title :: seen := by
            intro hc
            rcases List.mem_cons.mp hc with h1 | h1
            · exact hne h1.symm
            · exact hseen h1
          obtain ⟨row, hrow, hid⟩ := (ih (idx + 1) (item.title :: seen) i').mpr
            ⟨r, hr, hseen', fun j hj r' hr' =>
              hfirst (j + 1) (by omega) r' (by simpa using hr')⟩
          exact ⟨row, List.mem_cons_of_mem _ hrow, (hshift row).mpr hid⟩

/-- Claim C2: the number of data rows written equals the number of
distinct titles among the records passed to the writer; the rows are
exactly the first occurrence (in input order) of each title, in
first-seen order, with duplicate titles strictly removed. -/
theorem writer_dedups_by_title (results : List NormalizedRecord) :
    (writtenRows (save_results results)).length
        = ((results.map NormalizedRecord.title).toFinset).card
    ∧ (writtenRows (save_results results)).map rowContent
        = (specDedupFirst results []).map recordContent
    ∧ ((writtenRows (save_results results)).map CsvRow.title).Nodup := by
  rw [writtenRows_eq]
  refine ⟨?_, save_rows_map_content results 1 [], ?_⟩
  · have hnd := nodup_title_specDedupFirst results []
    have hset : ((specDedupFirst results []).map NormalizedRecord.title).toFinset
        = (results.map NormalizedRecord.title).toFinset := by
      ext t
      simp only [List.mem_toFinset]
      rw [mem_title_specDedupFirst]
      simp
    calc (save_rows results 1 []).length
        = ((save_rows results 1 []).map CsvRow.title).length := (List.length_map _ _).symm
      _ = ((specDedupFirst results []).map NormalizedRecord.title).length := by
          rw [save_rows_map_title]
      _ = ((specDedupFirst results []).map NormalizedRecord.title).toFinset.card :=
          (List.toFinset_card_of_nodup hnd).symm
      _ = ((results.map NormalizedRecord.title).toFinset).card := by rw [hset]
  · rw [save_rows_map_title]
    exact nodup_title_specDedupFirst results []

/-- Claim C1 as written is false on the code: the ID counter is the
`enumerate` index over ALL input records, so it advances on skipped
duplicates too.  On `dupTitleInput` (titles "A", "A", "B") the second
row written carries ID 3, not 2. -/
theorem writer_kth_row_id_not_k :
    ¬ ∀ (results : List NormalizedRecord) (k : Nat) (row : CsvRow),
        (writtenRows (save_results results)).get? k = some row → row.id = k + 1 := by
  intro h
  have h2 := h dupTitleInput 1
    { id := 3, type := "Research Paper", title := "B", authors := "Z", link := "lc" }
    (by decide)
  exact absurd h2 (by decide)

/-- Claim C1 (amended): a row with ID `1 + i` is emitted precisely when
the record at 0-based input position `i` is the first occurrence of its
title; the counter advances on every input record, including skipped
duplicates, so emitted IDs are strictly increasing but may skip values. -/
theorem writer_id_is_input_position (results : List NormalizedRecord) (i : Nat) :
    (∃ row ∈ writtenRows (save_results results), row.id = 1 + i) ↔
      (∃ r, results.get? i = some r ∧
        ∀ j, j < i → ∀ r', results.get? j = some r' → r'.title ≠ r.title) := by
  rw [writtenRows_eq]
  simpa using save_rows_id_iff results 1 [] i

/-- Claim C10: when two or more raw results lack a title, each is
formatted with title "N/A"; the writer then emits at most one row with
title "N/A" — a titleless record whose predecessors all normalize to a
title other than "N/A" is emitted — and every titleless record after
another titleless one is silently dropped as a duplicate, whatever its
link or authors. -/
theorem titleless_records_deduped (raws : List RawResult)
    (h2 : 2 ≤ (raws.filter (fun r => r.title.isNone)).length) :
    (∀ r ∈ raws, r.title = none → (format_one r).title = "N/A")
    ∧ ((writtenRows (save_results (format_google_scholar_results raws))).map
        CsvRow.title).count "N/A" ≤ 1
    ∧ (∀ i ri, raws.get? i = some ri → ri.title = none →
        (∀ j, j < i → ∀ rj, raws.get? j = some rj → (format_one rj).title ≠ "N/A") →
        ∃ row ∈ writtenRows (save_results (format_google_scholar_results raws)),
            row.id = 1 + i)
    ∧ (∀ i j ri rj, i < j → raws.get? i = some ri → raws.get? j = some rj →
        ri.title = none → rj.title = none →
        ¬ ∃ row ∈ writtenRows (save_results (format_google_scholar_results raws)),
            row.id = 1 + j) := by
  refine ⟨?_, ?_, ?_, ?_⟩
  · intro r hr ht
    simp [format_one, ht]
  · rw [writtenRows_eq, save_rows_map_title]
    exact List.nodup_iff_count_le_one.mp
      (nodup_title_specDedupFirst (format_google_scholar_results raws) []) "N/A"
  · intro i ri hri hti hfirst
    rw [writtenRows_eq]
    refine (save_rows_id_iff (format_google_scholar_results raws) 1 [] i).mpr
      ⟨format_one ri, ?_, List.not_mem_nil _, ?_⟩
    · rw [format_google_scholar_results, List.get?_map, hri, Option.map_some']
    · intro j hj r' hr'
      rw [format_google_scholar_results, List.get?_map] at hr'
      cases hrj : raws.get? j with
      | none => rw [hrj] at hr'; cases hr'
      | some rj =>
        rw [hrj, Option.map_some'] at hr'
        cases hr'
        have hne := hfirst j hj rj hrj
        have hNA : (format_one ri).title = "N/A" := by simp [format_one, hti]
        rw [hNA]
        exact hne
  · intro i j ri rj hij hri hrj hti htj hex
    rw [writtenRows_eq] at hex
    obtain ⟨r, hr, -, hfirst⟩ :=
      (save_rows_id_iff (format_google_scholar_results raws) 1 [] j).mp hex
    have hrj' : (format_google_scholar_results raws).get? j = some (format_one rj) := by
      rw [format_google_scholar_results, List.get?_map, hrj, Option.map_some']
    have hri' : (format_google_scholar_results raws).get? i = some (format_one ri) := by
      rw [format_google_scholar_results, List.get?_map, hri, Option.map_some']
    rw [hrj'] at hr
    cases hr
    exact hfirst i hij (format_one ri) hri' (by simp [format_one, hti, htj])

/-- Witness for C10 at two titleless records with different links. -/
theorem titleless_records_deduped_witness :
    ((writtenRows (save_results (format_google_scholar_results rawsTitleless))).map
        CsvRow.title).count "N/A" ≤ 1 :=
  (titleless_records_deduped rawsTitleless (by decide)).2.1

/-- Element `i` of the offset list `range' s k 10`. -/
lemma range'_ten_get (s k i : Nat) :
    (List.range' s k 10).get? i = if i < k then some (s + 10 * i) else none := by
  induction k generalizing s i with
  | zero => simp [List.range']
  | succ k ih =>
    rw [List.range'_succ]
    cases i with
    | zero => simp
    | succ i' =>
      rw [List.get?_cons_succ, ih (s + 10) i']
      by_cases hik : i' < k
      · rw [if_pos hik, if_pos (by omega)]
        congr 1
        omega
      · rw [if_neg hik, if_neg (by omega)]

/-- A fetch call is issued at an offset iff that offset occurs in the
loop's offset list and every earlier offset's page was full (at least
10 items). -/
lemma mem_pageLoop_offsets (pages : Nat → List RawResult) (offs : List Nat) (o : Nat) :
    o ∈ (pageLoop pages offs).2 ↔
      ∃ i, offs.get? i = some o ∧
        ∀ j, j < i → ∃ oj, offs.get? j = some oj ∧ 10 ≤ (pages oj).length := by
  induction offs with
  | nil => simp [pageLoop]
  | cons a rest ih =>
    by_cases h : (pages a).length < 10
    · rw [pageLoop]
      simp only [h, if_true, List.mem_singleton]
      constructor
      · rintro rfl
        exact ⟨0, List.get?_cons_zero, fun j hj => absurd hj (Nat.not_lt_zero j)⟩
      · rintro ⟨i, hi, hall⟩
        cases i with
        | zero =>
          rw [List.get?_cons_zero] at hi
          cases hi
          rfl
        | succ i' =>
          obtain ⟨oj, hoj, hlen⟩ := hall 0 (Nat.succ_pos i')
          rw [List.get?_cons_zero] at hoj
          cases hoj
          omega
    · rw [pageLoop]
      simp only [h, if_false, List.mem_cons]
      constructor
      · rintro (rfl | hmem)
        · exact ⟨0, List.get?_cons_zero, fun j hj => absurd hj (Nat.not_lt_zero j)⟩
        · obtain ⟨i, hi, hall⟩ := ih.mp hmem
          refine ⟨i + 1, by simpa using hi, ?_⟩
          intro j hj
          cases j with
          | zero => exact ⟨a, List.get?_cons_zero, by omega⟩
          | succ j' =>
            obtain ⟨oj, hoj, hlen⟩ := hall j' (by omega)
            exact ⟨oj, by simpa using hoj, hlen⟩
      · rintro ⟨i, hi, hall⟩
        cases i with
        | zero =>
          rw [List.get?_cons_zero] at hi
          cases hi
          exact Or.inl rfl
        | succ i' =>
          refine Or.inr (ih.mpr ⟨i', by simpa using hi, ?_⟩)
          intro j hj
          obtain ⟨oj, hoj, hlen⟩ := hall (j + 1) (by omega)
          exact ⟨oj, by simpa using hoj, hlen⟩

/-- When every page in the offset list is full, the loop never breaks:
it fetches every offset. -/
lemma pageLoop_offsets_of_full (pages : Nat → List RawResult) (offs : List Nat)
    (h : ∀ o ∈ offs, ¬((pages o).length < 10)) :
    (pageLoop pages offs).2 = offs := by
  induction offs with
  | nil => rfl
  | cons a rest ih =>
    have ha := h a (List.mem_cons_self a rest)
    rw [pageLoop]
    simp only [ha, if_false]
    rw [ih (fun o ho => h o (List.mem_cons_of_mem a ho))]

/-- Running the loop over `offs₁ ++ offs₂` when every page of `offs₁`
is full: all of `offs₁` is fetched and accumulated, then the loop
continues into `offs₂`. -/
lemma pageLoop_append_full (pages : Nat → List RawResult) (offs₁ offs₂ : List Nat)
    (h : ∀ o ∈ offs₁, ¬((pages o).length < 10)) :
    pageLoop pages (offs₁ ++ offs₂) =
      ((offs₁.map pages).flatten ++ (pageLoop pages offs₂).1,
        offs₁ ++ (pageLoop pages offs₂).2) := by
  induction offs₁ with
  | nil => simp
  | cons a rest ih =>
    have ha := h a (List.mem_cons_self a rest)
    rw [List.cons_append, pageLoop]
    simp only [ha, if_false]
    rw [ih (fun o ho => h o (List.mem_cons_of_mem a ho))]
    simp [List.append_assoc]

/-- Claim C5: fetch calls are issued at offsets 0, 10, 20, …; an offset
is fetched exactly when it is below the requested total and every
earlier page was full, so the loop stops at the first short page or at
the requested total, whichever comes first; and with `num_results = 50`
and every page of exactly 10 items, exactly 5 fetch calls occur. -/
theorem pagination_offsets_and_count :
    (∀ (net : Nat → HttpOutcome) (num_results o : Nat),
      o ∈ (get_google_scholar_results net num_results).2 ↔
        ∃ i, o = 10 * i ∧ o < num_results ∧
          ∀ j, j < i → 10 ≤ (organicResults (fetch (net (10 * j)))).length)
    ∧ (∀ net : Nat → HttpOutcome,
        (∀ o, (organicResults (fetch (net o))).length = 10) →
        (get_google_scholar_results net 50).2.length = 5) := by
  constructor
  · intro net num_results o
    rw [get_google_scholar_results, mem_pageLoop_offsets, pageOffsets]
    constructor
    · rintro ⟨i, hi, hall⟩
      rw [range'_ten_get] at hi
      by_cases him : i < (num_results + 9) / 10
      · rw [if_pos him] at hi
        cases hi
        refine ⟨i, by omega, by omega, ?_⟩
        intro j hj
        obtain ⟨oj, hoj, hlen⟩ := hall j hj
        rw [range'_ten_get, if_pos (by omega)] at hoj
        cases hoj
        simpa using hlen
      · rw [if_neg him] at hi
        cases hi
    · rintro ⟨i, rfl, hlt, hall⟩
      refine ⟨i, ?_, ?_⟩
      · rw [range'_ten_get, if_pos (by omega)]
        congr 1
        omega
      · intro j hj
        refine ⟨10 * j, ?_, hall j hj⟩
        rw [range'_ten_get, if_pos (by omega)]
        congr 1
        omega
  · intro net hfull
    rw [get_google_scholar_results,
      pageLoop_offsets_of_full _ _ (fun o _ => by rw [hfull o]; omega)]
    rw [show pageOffsets 50 = List.range' 0 5 10 from rfl]
    simp [List.length_range']

/-- Witness for C5: on a network of all-full pages with
`num_results = 50`, exactly 5 fetch calls occur, and offset 0 is one of
them. -/
theorem pagination_offsets_and_count_witness :
    (get_google_scholar_results netFull 50).2.length = 5 ∧
      0 ∈ (get_google_scholar_results netFull 50).2 :=
  ⟨pagination_offsets_and_count.2 netFull (fun o => rfl),
   (pagination_offsets_and_count.1 netFull 50 0).mpr
     ⟨0, rfl, by decide, fun j hj => absurd hj (Nat.not_lt_zero j)⟩⟩

/-- Claim C7: when the fetch at offset `10 * k` fails (returns the
empty mapping) after `k` full pages, the loop terminates at that page
with no retry — the offsets fetched are exactly 0, 10, …, `10 * k` —
and the results accumulated from the earlier pages are still returned
and flow on to formatting and writing. -/
theorem failed_page_keeps_partial (net : Nat → HttpOutcome) (num_results k : Nat)
    (hk : 10 * k < num_results)
    (hfull : ∀ j, j < k → 10 ≤ (organicResults (fetch (net (10 * j)))).length)
    (hfail : fetch (net (10 * k)) = emptyMapping) :
    (get_google_scholar_results net num_results).1
        = ((List.range' 0 k 10).map (fun o => organicResults (fetch (net o)))).flatten
    ∧ (get_google_scholar_results net num_results).2 = List.range' 0 (k + 1) 10 := by
  obtain ⟨d, hd⟩ : ∃ d, (num_results + 9) / 10 = k + (d + 1) := by
    refine ⟨(num_results + 9) / 10 - k - 1, ?_⟩
    omega
  have hsplit : pageOffsets num_results
      = List.range' 0 k 10 ++ (10 * k :: List.range' (10 * k + 10) d 10) := by
    rw [pageOffsets, hd, ← List.range'_succ, Nat.add_comm k (d + 1), ← List.range'_append]
    norm_num
  rw [get_google_scholar_results, hsplit,
    pageLoop_append_full _ _ _ (by
      intro o ho
      rw [List.mem_range'] at ho
      obtain ⟨i, hik, rfl⟩ := ho
      have := hfull i hik
      simp only [Nat.zero_add]
      omega)]
  rw [pageLoop]
  have hempty : organicResults (fetch (net (10 * k))) = [] := by
    rw [hfail]
    rfl
  simp only [hempty, List.length_nil, if_pos (by omega : (0:Nat) < 10)]
  constructor
  · simp
  · have happ := List.range'_append 0 k 1 10
    simp only [Nat.zero_add] at happ
    have hsingle : List.range' 0 (k + 1) 10
        = List.range' 0 k 10 ++ List.range' (10 * k) 1 10 := by
      rw [Nat.add_comm k 1, ← happ]
    rw [hsingle]
    rfl

/-- Witness for C7: with full pages at offsets 0 and 10 and a transport
failure at offset 20, the fetched offsets are exactly 0, 10, 20 and the
first two pages' results are returned. -/
theorem failed_page_keeps_partial_witness :
    (get_google_scholar_results netFail 50).1
        = ((List.range' 0 2 10).map (fun o => organicResults (fetch (netFail o)))).flatten
    ∧ (get_google_scholar_results netFail 50).2 = List.range' 0 (2 + 1) 10 :=
  failed_page_keeps_partial netFail 50 2 (by decide) (by decide) rfl

end ResearchScraper
